import Mathlib

/-!
Shallow embedding of MGSIM's read-simulation orchestration
(`MGSIM/SimReads.py` and the command front end `MGSIM/Commands/Reads.py`).

Python floats are modelled as rationals (every concrete value appearing in
the program and the spec is a dyadic rational, on which Python float
arithmetic is exact); Python strings are modelled as `List Char`;
`pandas` tables are modelled as lists of row structures.
-/

namespace MGSIM

/-- Semantics of Python's `int()` applied to a float value: truncation
toward zero. -/
def pyInt (q : ℚ) : ℤ := if 0 ≤ q then ⌊q⌋ else ⌈q⌉

/-- Paired-mode detection in `sim_illumina` (SimReads.py lines 154-162):
`paired = 2` when the key `--paired` is present in `art_params`
(no `KeyError`), otherwise `paired = 2` when `--mflen` is present,
otherwise `paired = 1`.  The two booleans record key presence. -/
def mateCount (hasPaired hasMflen : Bool) : ℕ :=
  if hasPaired then 2 else if hasMflen then 2 else 1

/-- Fold-coverage computation of `sim_illumina` (SimReads.py lines 163-164):
`read_length = art_params[--len] * paired` and
`fold = perc_rel_abund / 100.0 * seq_depth * read_length / genome_size`.
Python raises `ZeroDivisionError` on float division by zero, so the
computation is fallible; any non-zero divisor (negative included) divides
without error. -/
def foldOf (p d len : ℚ) (hasPaired hasMflen : Bool) (g : ℚ) :
    Except String ℚ :=
  if g = 0 then Except.error "ZeroDivisionError"
  else Except.ok (p / 100 * d * (len * (mateCount hasPaired hasMflen : ℚ)) / g)

/-- Spec's short-read formula, written from the spec's words:
`fold = (relative_abundance_percent / 100) * total_read_depth *
effective_read_length / genome_size_bp` with
`effective_read_length = per_read_length * mate_count`. -/
def foldSpec (p d len : ℚ) (mc : ℕ) (g : ℚ) : ℚ :=
  (p / 100) * d * (len * (mc : ℚ)) / g

/-- Long-read read-count computation of `sim_pacbio` (SimReads.py line 394)
and `sim_nanopore` (line 526): `int(perc_rel_abund / 100.0 * seq_depth)`. -/
def computeNReads (p d : ℚ) : ℤ := pyInt (p / 100 * d)

/-- Executable check of `sim_illumina` / `sim_pacbio` / `sim_nanopore`
(SimReads.py lines 147, 388, 520): the guard is
`find_executable(exe) == ''`.  `distutils.spawn.find_executable` returns
the resolved path as a string, or `None` when the executable is not
resolvable on the execution path; the argument models that return value,
`none` standing for Python's `None`. -/
def findExecutableGuard (lookup : Option String) : Bool :=
  lookup == some ""

/-- First steps of each `sim_*` function: raise `IOError` when the guard
fires, otherwise fall through to `os.makedirs(temp_dir)` and the
per-record subprocess dispatch.  Returns the pair
(error raised, scratch directory created and work dispatched). -/
def simReadsPrelude (lookup : Option String) : Bool × Bool :=
  if findExecutableGuard lookup then (true, false) else (false, true)

/-- Construction of `art_params` in `Commands/Reads.py` lines 58-68:
`--paired` is kept (as an empty-valued flag) iff the `--art-paired` CLI
flag was given; `--mflen` starts at the CLI value (default 200.0) and is
popped when `int(art_params[--mflen]) <= 0`.  Returns the presence of
the keys (`--paired`, `--mflen`). -/
def buildArtParams (artPaired : Bool) (mflen : ℚ) : Bool × Bool :=
  (artPaired, decide (0 < pyInt mflen))

/-- Character class of the regex `[()\/:;, ]` in `tidy_taxon_names`
(SimReads.py line 32). -/
def isSpecial (c : Char) : Bool :=
  c == '(' || c == ')' || c == '/' || c == ':' || c == ';' || c == ',' || c == ' '

/-- Scanner for `re.sub(r'[()\/:;, ]+', '_', x)`: the boolean records
whether the previous character belonged to the character class, so that a
maximal nonempty run of class characters emits exactly one underscore. -/
def tidyAux : Bool → List Char → List Char
  | _, [] => []
  | prev, c :: cs =>
    if isSpecial c then
      if prev then tidyAux true cs else '_' :: tidyAux true cs
    else c :: tidyAux false cs

/-- Normalization of taxon names, `tidy_taxon_names` (SimReads.py
lines 28-33): each maximal run of characters from `[()\/:;, ]` is
replaced by a single underscore. -/
def tidy (l : List Char) : List Char := tidyAux false l

/-- Decimal digit list of a natural number with explicit fuel (the first
argument); enough fuel is always supplied by `natDecimal`. -/
def natDecimalAux : ℕ → ℕ → List Char
  | 0, _ => []
  | fuel + 1, n =>
    if n < 10 then [Nat.digitChar n]
    else natDecimalAux fuel (n / 10) ++ [Nat.digitChar (n % 10)]

/-- Decimal rendering of a natural number, the semantics of Python's
`str.format` applied to the record index in `'{}__SEQ{}'`. -/
def natDecimal (n : ℕ) : List Char := natDecimalAux (n + 1) n

/-- Value parsed back from a decimal character list; a left inverse of
`natDecimal`, used to show distinct indices yield distinct identifiers. -/
def decVal (l : List Char) : ℕ :=
  l.foldl (fun a c => a * 10 + (c.toNat - ('0').toNat)) 0

/-- Separator written by `_write_reads`'s format string `'{taxon}__SEQ{i}'`
(SimReads.py line 321). -/
def seqSep : List Char := ['_', '_', 'S', 'E', 'Q']

/-- Read identifier written by `_write_reads` (SimReads.py line 321):
`'{taxon}__SEQ{i}'` where `taxon` is the parent-directory name of the
source file and `i` the 0-based index of the record in that source file. -/
def mkReadName (taxon : List Char) (i : ℕ) : List Char :=
  taxon ++ seqSep ++ natDecimal i

/-- One per-taxon temporary read file fed to `_write_reads`: the taxon is
the name of the file's parent directory (`os.path.split` applied twice,
SimReads.py line 318) and the records are the reads it holds, in file
order.  The payload type abstracts a read's sequence and quality data. -/
structure SrcFile (α : Type) where
  taxon : List Char
  records : List α

/-- Renaming pass of `_write_reads` over a single source file
(SimReads.py lines 319-324): record `i` keeps its payload and is written
under the identifier `mkReadName taxon i` (both `record.id` and
`record.description` are set to that name). -/
def writeFileRecords {α : Type} (f : SrcFile α) : List (List Char × α) :=
  f.records.enum.map (fun p => (mkReadName f.taxon p.1, p.2))

/-- Destination contents produced by `_write_reads` over all source files
of one merge (one sample, one mate): files are processed in order, each
contributing its renamed records (SimReads.py lines 316-326). -/
def combineRecords {α : Type} (fs : List (SrcFile α)) : List (List Char × α) :=
  fs.flatMap writeFileRecords

/-- Source file together with whether reading it (`SeqIO.parse`) and
writing all of its records runs to completion. -/
structure TmpFile (α : Type) where
  taxon : List Char
  records : List α
  readOk : Bool

/-- Filesystem-visible outcome of one `_write_reads` call: records
written to the destination, source files removed, source files still on
disk, and whether the loop aborted with an exception. -/
structure MergeTrace (α : Type) where
  written : List (List Char × α)
  deleted : List (TmpFile α)
  remaining : List (TmpFile α)
  failed : Bool

/-- Effectful run of `_write_reads` (SimReads.py lines 316-326):
source files are consumed in order; `os.remove(in_file)` runs right
after a file's record loop finishes, so a file that is fully read is
deleted no matter what happens to later files, and a failure while
reading or writing a file leaves that file and all later ones on disk
and aborts the loop. -/
def runWriteReads {α : Type} : List (TmpFile α) → MergeTrace α
  | [] => ⟨[], [], [], false⟩
  | f :: rest =>
    if f.readOk then
      let r := runWriteReads rest
      ⟨writeFileRecords ⟨f.taxon, f.records⟩ ++ r.written, f :: r.deleted,
        r.remaining, r.failed⟩
    else ⟨[], [], f :: rest, true⟩

/-- Failure shape of one `_write_reads` call: the first `k` source files
are read and written to completion and, if any file is left, reading or
writing file `k` fails. -/
def failsAt {α : Type} (fs : List (TmpFile α)) (k : ℕ) : Prop :=
  (∀ f ∈ fs.take k, f.readOk = true) ∧
    ∀ h : k < fs.length, (fs.get ⟨k, h⟩).readOk = false

/-- Row of the genome table after `load_genome_table`: normalized Taxon,
Fasta path, computed Genome_size. -/
structure GRow where
  taxon : List Char
  fasta : List Char
  size : ℕ
deriving DecidableEq

/-- Row of the abundance table after `load_abund_table`: Community,
normalized Taxon, Perc_rel_abund. -/
structure ARow where
  community : List Char
  taxon : List Char
  perc : ℚ
deriving DecidableEq

/-- Joined record produced by `sample_taxon_list`, column order
[Community, Taxon, Genome_size, Fasta, Perc_rel_abund]
(SimReads.py line 113). -/
structure STRec where
  community : List Char
  taxon : List Char
  size : ℕ
  fasta : List Char
  perc : ℚ
deriving DecidableEq

/-- `sample_taxon_list` (SimReads.py lines 101-116):
`abund_table.merge(genome_table, on=['Taxon'])` is a pandas inner join
keeping the left (abundance) row order and, per abundance row, the
genome rows whose Taxon matches, in genome-table order; each match
yields one output record. -/
def sampleTaxonList (abund : List ARow) (genome : List GRow) : List STRec :=
  abund.flatMap (fun a =>
    (genome.filter (fun g => decide (g.taxon = a.taxon))).map (fun g =>
      ⟨a.community, a.taxon, g.size, g.fasta, a.perc⟩))

/-- Required genome-table columns (SimReads.py line 47). -/
def requiredGenomeCols : List String := ["Taxon", "Fasta"]

/-- Required abundance-table columns (SimReads.py line 91). -/
def requiredAbundCols : List String := ["Community", "Taxon", "Perc_rel_abund"]

/-- Header check shared by both loaders:
`diff = set(required) - set(df.columns)`, raise iff `diff` is nonempty,
the message naming exactly `diff`.  The set is modelled as the
duplicate-free list of required columns absent from the header, in
required-column order. -/
def missingCols (required cols : List String) : List String :=
  required.filter (fun c => decide (c ∉ cols))

/-- Total bp of a genome FASTA, `_genome_size` (SimReads.py lines 66-78):
the sum of the sequence lengths over all records of the file, here
modelled by the list of those lengths. -/
def genomeSize (seqLens : List ℕ) : ℕ := seqLens.sum

/-- Raw genome-table row as read by `pd.read_csv`: Taxon, Fasta path,
and the sequence lengths of the records in that FASTA file. -/
structure GRowRaw where
  taxon : List Char
  fasta : List Char
  seqLens : List ℕ
deriving DecidableEq

/-- Raw abundance-table row as read by `pd.read_csv`. -/
structure ARowRaw where
  community : List Char
  taxon : List Char
  perc : ℚ
deriving DecidableEq

/-- `load_genome_table` after `pd.read_csv` (SimReads.py lines 46-64):
the header check runs first and raises before anything else; only on
success are genome sizes computed (possibly in a worker pool) and taxon
names tidied. -/
def loadGenomeTable (cols : List String) (rows : List GRowRaw) :
    Except (List String) (List GRow) :=
  let missing := missingCols requiredGenomeCols cols
  if missing.isEmpty then
    Except.ok (rows.map (fun r => ⟨tidy r.taxon, r.fasta, genomeSize r.seqLens⟩))
  else Except.error missing

/-- `load_abund_table` after `pd.read_csv` (SimReads.py lines 88-99):
the header check runs first and raises before anything else; only on
success are taxon names tidied. -/
def loadAbundTable (cols : List String) (rows : List ARowRaw) :
    Except (List String) (List ARow) :=
  let missing := missingCols requiredAbundCols cols
  if missing.isEmpty then
    Except.ok (rows.map (fun r => ⟨r.community, tidy r.taxon, r.perc⟩))
  else Except.error missing

/-! Theorems. -/

lemma pyInt_pos_iff (q : ℚ) : 0 < pyInt q ↔ 1 ≤ q := by
  unfold pyInt
  by_cases h : 0 ≤ q
  · rw [if_pos h, Int.lt_iff_add_one_le, zero_add, Int.le_floor]
    norm_num
  · rw [if_neg h]
    have hq : q < 0 := not_le.mp h
    constructor
    · intro h1
      exfalso
      have hc : ⌈q⌉ ≤ 0 := Int.ceil_le.mpr (by push_cast; linarith)
      omega
    · intro h1; linarith

/-- C1: for every record processed by `sim_illumina` with a non-zero
genome size, the computed fold equals
(relative_abundance_percent / 100) * seq_depth *
(per_read_length * mate_count) / genome_size_bp, where mate_count is 2
iff paired-end parameters (`--paired` or `--mflen`) are active and 1
otherwise; with perc = 50, depth = 100000, len = 150, mate_count = 2 and
genome size 1000000 the fold is 15. -/
theorem c1_fold_formula :
    (∀ (p d len : ℚ) (hp hm : Bool) (g : ℚ), g ≠ 0 →
      foldOf p d len hp hm g =
        Except.ok (foldSpec p d len (mateCount hp hm) g))
    ∧ (∀ hp hm : Bool, mateCount hp hm = if hp || hm then 2 else 1)
    ∧ foldOf 50 100000 150 true false 1000000 = Except.ok 15 := by
  refine ⟨?_, ?_, ?_⟩
  · intro p d len hp hm g hg
    simp [foldOf, foldSpec, hg]
  · intro hp hm
    cases hp <;> cases hm <;> rfl
  · norm_num [foldOf, mateCount]

/-- Witness for C1: the fold formula instantiated at the spec's concrete
inputs, with the non-zero-genome hypothesis discharged. -/
theorem c1_fold_formula_witness :
    ((1000000 : ℚ) ≠ 0) ∧
      foldOf 50 100000 150 true false 1000000 =
        Except.ok (foldSpec 50 100000 150 (mateCount true false) 1000000) :=
  ⟨by norm_num, c1_fold_formula.1 50 100000 150 true false 1000000 (by norm_num)⟩

/-- C2 (code bug): with the executable unresolvable,
`distutils.spawn.find_executable` returns `None`, the guard
`find_executable(exe) == ''` does not fire, so no error is raised and the
scratch directory is created and dispatch proceeds — contradicting both
the spec's fail-fast contract and the code's own intent. -/
theorem c2_executable_check_dead :
    findExecutableGuard none = false ∧ simReadsPrelude none = (false, true) :=
  ⟨rfl, rfl⟩

/-- C4: for every record processed by `sim_pacbio` or `sim_nanopore` with
nonnegative relative abundance (and nonnegative sequencing depth), the
absolute read count `int(perc / 100 * seq_depth)` equals
floor(perc / 100 * seq_depth); at perc = 20, depth = 100000 it is 20000. -/
theorem c4_nreads_formula :
    (∀ p d : ℚ, 0 ≤ p → 0 ≤ d → computeNReads p d = ⌊p / 100 * d⌋)
    ∧ computeNReads 20 100000 = 20000 := by
  constructor
  · intro p d hp hd
    have hnn : (0:ℚ) ≤ p / 100 * d := mul_nonneg (div_nonneg hp (by norm_num)) hd
    simp [computeNReads, pyInt, hnn]
  · norm_num [computeNReads, pyInt]

/-- Witness for C4 at the spec's concrete inputs. -/
theorem c4_nreads_formula_witness :
    ((0:ℚ) ≤ 20) ∧ ((0:ℚ) ≤ 100000) ∧
      computeNReads 20 100000 = ⌊(20:ℚ) / 100 * 100000⌋ :=
  ⟨by norm_num, by norm_num,
    c4_nreads_formula.1 20 100000 (by norm_num) (by norm_num)⟩

/-- C5 counterexample: a record with negative (hence non-positive) genome
size is not rejected; the fold computation succeeds and returns a
negative coverage value, contradicting the claim for non-positive sizes. -/
theorem c5_counterexample :
    foldOf 50 100000 150 true false (-1000000) = Except.ok (-15) ∧
      ((-1000000 : ℚ) < 0) ∧ ((-15 : ℚ) < 0) :=
  ⟨by norm_num [foldOf, mateCount], by norm_num, by norm_num⟩

/-- C5 amended: a record with genome_size_bp = 0 makes the fold
computation fail with Python's division-by-zero error (no infinite or NaN
coverage is produced); a negative genome size is not rejected and, for
positive abundance, depth and read length, yields a finite negative
fold. -/
theorem c5_zero_genome_rejected :
    (∀ (p d len : ℚ) (hp hm : Bool),
        foldOf p d len hp hm 0 = Except.error "ZeroDivisionError")
    ∧ (∀ (p d len : ℚ) (hp hm : Bool) (g : ℚ),
        g < 0 → 0 < p → 0 < d → 0 < len →
        ∃ v, foldOf p d len hp hm g = Except.ok v ∧ v < 0) := by
  constructor
  · intro p d len hp hm
    simp [foldOf]
  · intro p d len hp hm g hg hpp hdp hlp
    have hmc : (0:ℚ) < (mateCount hp hm : ℚ) := by
      unfold mateCount
      cases hp <;> cases hm <;> norm_num
    refine ⟨p / 100 * d * (len * (mateCount hp hm : ℚ)) / g, ?_, ?_⟩
    · simp [foldOf, hg.ne]
    · exact div_neg_of_pos_of_neg
        (mul_pos (mul_pos (div_pos hpp (by norm_num)) hdp) (mul_pos hlp hmc)) hg

/-- Witness for C5's amended statement at a concrete negative genome
size. -/
theorem c5_zero_genome_rejected_witness :
    ((-1000000 : ℚ) < 0) ∧ ((0:ℚ) < 50) ∧ ((0:ℚ) < 100000) ∧ ((0:ℚ) < 150) ∧
      ∃ v, foldOf 50 100000 150 true false (-1000000) = Except.ok v ∧ v < 0 :=
  ⟨by norm_num, by norm_num, by norm_num, by norm_num,
    c5_zero_genome_rejected.2 50 100000 150 true false (-1000000)
      (by norm_num) (by norm_num) (by norm_num) (by norm_num)⟩

/-- C8 counterexample: with `--art-paired` absent and `--art-mflen` set to
0.5 — a positive, not non-positive, value — the front end pops `--mflen`
(since int(0.5) <= 0), so the mate count is 1 and the fold is not
computed with a doubled effective read length. -/
theorem c8_counterexample :
    ((0:ℚ) < 1/2) ∧ (buildArtParams false (1/2)).2 = false ∧
      mateCount (buildArtParams false (1/2)).1 (buildArtParams false (1/2)).2
        = 1 := by
  refine ⟨by norm_num, ?_, ?_⟩ <;>
    norm_num [buildArtParams, pyInt, mateCount]

/-- C8 amended: the front end keeps `--mflen` iff int(mflen) > 0, i.e.
iff mflen ≥ 1; hence without `--art-paired` the fold is computed with a
doubled effective read length exactly when mflen ≥ 1 — in particular at
the CLI default 200 — and with a single read length when mflen < 1, even
for positive fractional mflen. -/
theorem c8_mflen_doubles_fold :
    (∀ mflen : ℚ, (buildArtParams false mflen).2 = decide (1 ≤ mflen))
    ∧ (∀ (artPaired : Bool) (mflen : ℚ),
        mateCount (buildArtParams artPaired mflen).1
            (buildArtParams artPaired mflen).2
          = if artPaired = true ∨ 1 ≤ mflen then 2 else 1)
    ∧ mateCount (buildArtParams false 200).1 (buildArtParams false 200).2
        = 2 := by
  have key : ∀ mflen : ℚ, (buildArtParams false mflen).2 = decide (1 ≤ mflen) := by
    intro mflen
    simp only [buildArtParams]
    exact decide_eq_decide.mpr (pyInt_pos_iff mflen)
  have main : ∀ (artPaired : Bool) (mflen : ℚ),
      mateCount (buildArtParams artPaired mflen).1
          (buildArtParams artPaired mflen).2
        = if artPaired = true ∨ 1 ≤ mflen then 2 else 1 := by
    intro artPaired mflen
    cases artPaired
    · by_cases h : 1 ≤ mflen
      · have h2 : 0 < pyInt mflen := (pyInt_pos_iff mflen).mpr h
        simp [buildArtParams, mateCount, h, h2]
      · have h2 : ¬0 < pyInt mflen := fun hc => h ((pyInt_pos_iff mflen).mp hc)
        simp [buildArtParams, mateCount, h, h2]
    · simp [buildArtParams, mateCount]
  refine ⟨key, main, ?_⟩
  have := main false 200
  rw [this]
  norm_num

lemma tidyAux_no_special :
    ∀ (l : List Char) (b : Bool), ∀ c ∈ tidyAux b l, isSpecial c = false := by
  intro l
  induction l with
  | nil => intro b c hc; simp [tidyAux] at hc
  | cons a l ih =>
    intro b c hc
    by_cases ha : isSpecial a
    · cases b with
      | true =>
        rw [tidyAux, if_pos ha] at hc
        exact ih true c hc
      | false =>
        rw [tidyAux, if_pos ha] at hc
        rcases List.mem_cons.mp hc with h | h
        · subst h; decide
        · exact ih true c h
    · rw [tidyAux, if_neg ha] at hc
      rcases List.mem_cons.mp hc with h | h
      · subst h; simpa using ha
      · exact ih false c h

lemma tidyAux_id_of_no_special :
    ∀ l : List Char, (∀ c ∈ l, isSpecial c = false) → tidyAux false l = l := by
  intro l
  induction l with
  | nil => intro _; rfl
  | cons a l ih =>
    intro h
    have ha : isSpecial a = false := h a (List.mem_cons_self a l)
    rw [tidyAux, if_neg (by simp [ha])]
    rw [ih fun c hc => h c (List.mem_cons_of_mem a hc)]

lemma tidyAux_true_append (run rest : List Char)
    (h : ∀ c ∈ run, isSpecial c = true) :
    tidyAux true (run ++ rest) = tidyAux true rest := by
  induction run with
  | nil => rfl
  | cons a run ih =>
    rw [List.cons_append, tidyAux,
      if_pos (h a (List.mem_cons_self a run))]
    exact ih fun c hc => h c (List.mem_cons_of_mem a hc)

lemma tidyAux_true_eq_false (rest : List Char)
    (h : (rest.head?.all fun c => !isSpecial c) = true) :
    tidyAux true rest = tidyAux false rest := by
  cases rest with
  | nil => rfl
  | cons a rest =>
    have ha : isSpecial a = false := by simpa using h
    rw [tidyAux, tidyAux, if_neg (by simp [ha]), if_neg (by simp [ha])]

/-- C10: `tidy_taxon_names` replaces each maximal nonempty run of the
characters `()/:;, ` by a single underscore and keeps every other
character; it is idempotent, so (being a pure function of its input)
loading the same genome table twice yields identical normalized taxon
identifiers. -/
theorem c10_tidy_idempotent :
    (∀ l : List Char, tidy (tidy l) = tidy l)
    ∧ (∀ run rest : List Char, run ≠ [] → run.all isSpecial = true →
        (rest.head?.all fun c => !isSpecial c) = true →
        tidy (run ++ rest) = '_' :: tidy rest)
    ∧ (∀ (c : Char) (l : List Char), isSpecial c = false →
        tidy (c :: l) = c :: tidy l) := by
  refine ⟨?_, ?_, ?_⟩
  · intro l
    exact tidyAux_id_of_no_special _ (tidyAux_no_special l false)
  · intro run rest hne hall hrest
    cases run with
    | nil => exact absurd rfl hne
    | cons r run =>
      have hallm : ∀ c ∈ r :: run, isSpecial c = true := List.all_eq_true.mp hall
      rw [tidy, List.cons_append, tidyAux,
        if_pos (hallm r (List.mem_cons_self r run))]
      rw [tidyAux_true_append run rest
        fun c hc => hallm c (List.mem_cons_of_mem r hc)]
      rw [tidyAux_true_eq_false rest hrest]
      rfl
  · intro c l hc
    rw [tidy, tidyAux, if_neg (by simp [hc])]
    rfl

/-- Witness for C10's run-replacement part: the run `" ,"` followed by
`"a"` collapses to a single underscore. -/
theorem c10_tidy_idempotent_witness :
    ([' ', ','] ≠ ([] : List Char)) ∧ ([' ', ','].all isSpecial = true) ∧
      ((['a'].head?.all fun c => !isSpecial c) = true) ∧
      tidy ([' ', ','] ++ ['a']) = '_' :: tidy ['a'] :=
  ⟨by decide, by decide, by decide,
    c10_tidy_idempotent.2.1 [' ', ','] ['a'] (by decide) (by decide) (by decide)⟩

lemma mem_missingCols {required cols : List String} {c : String} :
    c ∈ missingCols required cols ↔ c ∈ required ∧ c ∉ cols := by
  simp [missingCols]

lemma loadGenomeTable_error_iff {cols : List String} {rows : List GRowRaw}
    {e : List String} :
    loadGenomeTable cols rows = Except.error e ↔
      (missingCols requiredGenomeCols cols).isEmpty = false ∧
        e = missingCols requiredGenomeCols cols := by
  unfold loadGenomeTable
  by_cases h : (missingCols requiredGenomeCols cols).isEmpty <;> simp [h]
  exact eq_comm

lemma loadAbundTable_error_iff {cols : List String} {rows : List ARowRaw}
    {e : List String} :
    loadAbundTable cols rows = Except.error e ↔
      (missingCols requiredAbundCols cols).isEmpty = false ∧
        e = missingCols requiredAbundCols cols := by
  unfold loadAbundTable
  by_cases h : (missingCols requiredAbundCols cols).isEmpty <;> simp [h]
  exact eq_comm

lemma missingCols_not_empty_iff {required cols : List String} :
    (missingCols required cols).isEmpty = false ↔ ∃ c ∈ required, c ∉ cols := by
  rw [← Bool.not_eq_true, List.isEmpty_iff]
  constructor
  · intro h
    rcases List.exists_mem_of_ne_nil _ h with ⟨c, hc⟩
    exact ⟨c, (mem_missingCols.mp hc).1, (mem_missingCols.mp hc).2⟩
  · rintro ⟨c, hc, hnc⟩ hnil
    exact (List.not_mem_nil c) (hnil ▸ mem_missingCols.mpr ⟨hc, hnc⟩)

/-- C7: `load_genome_table` raises iff `Taxon` or `Fasta` is absent from
the header, and `load_abund_table` iff `Community`, `Taxon` or
`Perc_rel_abund` is; the raised error names exactly the missing required
columns; and an erroring loader's result does not depend on the rows, so
no FASTA parsing, worker process or external invocation happens first. -/
theorem c7_missing_columns :
    (∀ (cols : List String) (rows : List GRowRaw),
      (∃ e, loadGenomeTable cols rows = Except.error e) ↔
        ("Taxon" ∉ cols ∨ "Fasta" ∉ cols))
    ∧ (∀ (cols : List String) (rows : List GRowRaw) (e : List String),
        loadGenomeTable cols rows = Except.error e →
        ((∀ c, c ∈ e ↔ (c ∈ requiredGenomeCols ∧ c ∉ cols)) ∧
          ∀ rows2, loadGenomeTable cols rows2 = Except.error e))
    ∧ (∀ (cols : List String) (rows : List ARowRaw),
      (∃ e, loadAbundTable cols rows = Except.error e) ↔
        ("Community" ∉ cols ∨ "Taxon" ∉ cols ∨ "Perc_rel_abund" ∉ cols))
    ∧ (∀ (cols : List String) (rows : List ARowRaw) (e : List String),
        loadAbundTable cols rows = Except.error e →
        ((∀ c, c ∈ e ↔ (c ∈ requiredAbundCols ∧ c ∉ cols)) ∧
          ∀ rows2, loadAbundTable cols rows2 = Except.error e)) := by
  refine ⟨?_, ?_, ?_, ?_⟩
  · intro cols rows
    simp only [loadGenomeTable_error_iff, exists_and_right]
    rw [missingCols_not_empty_iff]
    simp [requiredGenomeCols, or_comm]
  · intro cols rows e he
    rcases loadGenomeTable_error_iff.mp he with ⟨hne, rfl⟩
    exact ⟨fun c => mem_missingCols,
      fun rows2 => loadGenomeTable_error_iff.mpr ⟨hne, rfl⟩⟩
  · intro cols rows
    simp only [loadAbundTable_error_iff, exists_and_right]
    rw [missingCols_not_empty_iff]
    simp [requiredAbundCols]
  · intro cols rows e he
    rcases loadAbundTable_error_iff.mp he with ⟨hne, rfl⟩
    exact ⟨fun c => mem_missingCols,
      fun rows2 => loadAbundTable_error_iff.mpr ⟨hne, rfl⟩⟩

/-- Witness for C7: a genome table lacking `Fasta` fails with an error
naming exactly `Fasta`, no matter the rows. -/
theorem c7_missing_columns_witness :
    (loadGenomeTable ["Taxon"] [] = Except.error ["Fasta"]) ∧
      ((∀ c, c ∈ ["Fasta"] ↔ (c ∈ requiredGenomeCols ∧ c ∉ ["Taxon"])) ∧
        ∀ rows2, loadGenomeTable ["Taxon"] rows2 = Except.error ["Fasta"]) :=
  ⟨by simp [loadGenomeTable, missingCols, requiredGenomeCols],
    c7_missing_columns.2.1 ["Taxon"] [] ["Fasta"]
      (by simp [loadGenomeTable, missingCols, requiredGenomeCols])⟩

/-- C9: during one merge each source file is deleted exactly when it has
been fully read and written, independently of later failures: with the
first `k` files consumed to completion and file `k` (if any) failing,
precisely the first `k` files are deleted (each with all its records
written to the destination), the failing file and all later ones are
left in place, and the run fails iff some file was left. -/
theorem c9_source_deletion {α : Type} (fs : List (TmpFile α)) (k : ℕ)
    (h : failsAt fs k) :
    (runWriteReads fs).deleted = fs.take k
    ∧ (runWriteReads fs).remaining = fs.drop k
    ∧ (runWriteReads fs).written =
        (fs.take k).flatMap (fun f => writeFileRecords ⟨f.taxon, f.records⟩)
    ∧ (runWriteReads fs).failed = decide (k < fs.length) := by
  induction fs generalizing k with
  | nil =>
    simp [runWriteReads]
  | cons f rest ih =>
    obtain ⟨h1, h2⟩ := h
    cases k with
    | zero =>
      have hf : f.readOk = false := h2 (by simp)
      rw [runWriteReads, if_neg (by simp [hf])]
      simp
    | succ k =>
      have hf : f.readOk = true := h1 f (by simp)
      have hrest : failsAt rest k := by
        constructor
        · intro g hg
          exact h1 g (by simp [List.take_succ_cons, hg])
        · intro hlt
          have := h2 (by simpa using Nat.succ_lt_succ hlt)
          simpa using this
      obtain ⟨d1, d2, d3, d4⟩ := ih k hrest
      rw [runWriteReads, if_pos hf]
      refine ⟨by simp [d1], by simp [d2], by simp [d3], by simp [d4]⟩

/-- Witness for C9: three source files of which the second fails; the
first is deleted with its record written, the second and third remain. -/
theorem c9_source_deletion_witness :
    failsAt
        ([⟨['A'], [10], true⟩, ⟨['B'], [11], false⟩, ⟨['C'], [12], true⟩] :
          List (TmpFile ℕ)) 1 ∧
      (runWriteReads
          ([⟨['A'], [10], true⟩, ⟨['B'], [11], false⟩, ⟨['C'], [12], true⟩] :
            List (TmpFile ℕ))).deleted
        = ([⟨['A'], [10], true⟩, ⟨['B'], [11], false⟩, ⟨['C'], [12], true⟩] :
            List (TmpFile ℕ)).take 1 :=
  ⟨⟨by decide, fun h => rfl⟩,
    (c9_source_deletion
      ([⟨['A'], [10], true⟩, ⟨['B'], [11], false⟩, ⟨['C'], [12], true⟩] :
        List (TmpFile ℕ)) 1 ⟨by decide, fun h => rfl⟩).1⟩

lemma digitChar_isDigit {m : ℕ} (h : m < 10) :
    (Nat.digitChar m).isDigit = true := by
  interval_cases m <;> decide

lemma digitChar_toNat {m : ℕ} (h : m < 10) :
    (Nat.digitChar m).toNat - ('0').toNat = m := by
  interval_cases m <;> decide

lemma natDecimalAux_digits :
    ∀ (fuel n : ℕ), ∀ c ∈ natDecimalAux fuel n, c.isDigit = true := by
  intro fuel
  induction fuel with
  | zero => intro n c hc; simp [natDecimalAux] at hc
  | succ fuel ih =>
    intro n c hc
    rw [natDecimalAux] at hc
    by_cases h : n < 10
    · rw [if_pos h] at hc
      simp at hc
      subst hc
      exact digitChar_isDigit h
    · rw [if_neg h] at hc
      rcases List.mem_append.mp hc with h1 | h1
      · exact ih _ c h1
      · simp at h1
        subst h1
        exact digitChar_isDigit (Nat.mod_lt _ (by norm_num))

lemma decVal_append_digit (l : List Char) (c : Char) :
    decVal (l ++ [c]) = decVal l * 10 + (c.toNat - ('0').toNat) := by
  simp [decVal, List.foldl_append]

lemma decVal_natDecimalAux :
    ∀ fuel n, n < fuel → decVal (natDecimalAux fuel n) = n := by
  intro fuel
  induction fuel with
  | zero => intro n h; omega
  | succ fuel ih =>
    intro n h
    rw [natDecimalAux]
    by_cases h10 : n < 10
    · rw [if_pos h10]
      have : decVal [Nat.digitChar n] = (Nat.digitChar n).toNat - ('0').toNat := by
        simp [decVal]
      rw [this, digitChar_toNat h10]
    · have hd : n / 10 < n := Nat.div_lt_self (by omega) (by norm_num)
      rw [if_neg h10, decVal_append_digit, ih (n / 10) (by omega),
        digitChar_toNat (Nat.mod_lt _ (by norm_num))]
      omega

lemma natDecimal_inj {m n : ℕ} (h : natDecimal m = natDecimal n) : m = n := by
  have hm := decVal_natDecimalAux (m + 1) m (Nat.lt_succ_self m)
  have hn := decVal_natDecimalAux (n + 1) n (Nat.lt_succ_self n)
  unfold natDecimal at h
  rw [← hm, ← hn, h]

lemma natDecimal_no_Q {n : ℕ} : ∀ c ∈ natDecimal n, c ≠ 'Q' := by
  intro c hc heq
  have hd := natDecimalAux_digits (n + 1) n c hc
  rw [heq] at hd
  exact absurd hd (by decide)

lemma append_Q_cancel :
    ∀ (l1 : List Char) {l2 r1 r2 : List Char},
      (∀ c ∈ l1, c ≠ 'Q') → (∀ c ∈ l2, c ≠ 'Q') →
      l1 ++ 'Q' :: r1 = l2 ++ 'Q' :: r2 → l1 = l2 ∧ r1 = r2 := by
  intro l1
  induction l1 with
  | nil =>
    intro l2 r1 r2 _ h2 heq
    cases l2 with
    | nil => simpa using heq
    | cons b l2 =>
      rw [List.nil_append, List.cons_append] at heq
      injection heq with hb _
      exact ((h2 b (List.mem_cons_self b l2)) hb.symm).elim
  | cons a l1 ih =>
    intro l2 r1 r2 h1 h2 heq
    cases l2 with
    | nil =>
      rw [List.cons_append, List.nil_append] at heq
      injection heq with ha _
      exact ((h1 a (List.mem_cons_self a l1)) ha).elim
    | cons b l2 =>
      rw [List.cons_append, List.cons_append] at heq
      injection heq with hab htl
      obtain ⟨he1, he2⟩ := ih (fun c hc => h1 c (List.mem_cons_of_mem a hc))
        (fun c hc => h2 c (List.mem_cons_of_mem b hc)) htl
      exact ⟨by rw [hab, he1], he2⟩

lemma mkReadName_inj {t1 t2 : List Char} {i1 i2 : ℕ}
    (h : mkReadName t1 i1 = mkReadName t2 i2) : t1 = t2 ∧ i1 = i2 := by
  have hshape : ∀ (t : List Char) (i : ℕ),
      (t ++ seqSep ++ natDecimal i).reverse =
        (natDecimal i).reverse ++
          'Q' :: ('E' :: 'S' :: '_' :: '_' :: t.reverse) := by
    intro t i
    rw [List.reverse_append, List.reverse_append]
    rfl
  have hrev := congrArg List.reverse h
  rw [mkReadName, mkReadName, hshape, hshape] at hrev
  obtain ⟨hd, ht⟩ := append_Q_cancel _
    (fun c hc => natDecimal_no_Q c (List.mem_reverse.mp hc))
    (fun c hc => natDecimal_no_Q c (List.mem_reverse.mp hc)) hrev
  constructor
  · simp only [List.cons.injEq, true_and] at ht
    exact List.reverse_injective ht
  · exact natDecimal_inj (List.reverse_injective hd)

lemma map_fst_writeFileRecords {α : Type} (f : SrcFile α) :
    (writeFileRecords f).map Prod.fst =
      (List.range f.records.length).map (mkReadName f.taxon) := by
  rw [writeFileRecords, List.map_map]
  have hc : (Prod.fst ∘ fun p : ℕ × α => (mkReadName f.taxon p.1, p.2)) =
      (mkReadName f.taxon) ∘ Prod.fst := rfl
  rw [hc, ← List.map_map, List.enum_map_fst]

/-- C3: for every list of per-taxon source files merged for one sample
and mate, the destination record count is the sum of the source record
counts; every output identifier is `mkReadName taxon i` with `taxon` the
source file's parent-directory name and `i` the 0-based position of the
record within its own source file; and when the contributing taxa are
pairwise distinct all identifiers in the merged output are distinct. -/
theorem c3_merge_renaming {α : Type} (fs : List (SrcFile α))
    (hdist : fs.Pairwise (fun f g => f.taxon ≠ g.taxon)) :
    (combineRecords fs).length = (fs.map (fun f => f.records.length)).sum
    ∧ (∀ r ∈ combineRecords fs, ∃ f ∈ fs, ∃ i, i < f.records.length ∧
        r.1 = mkReadName f.taxon i)
    ∧ ((combineRecords fs).map Prod.fst).Nodup := by
  refine ⟨?_, ?_, ?_⟩
  · rw [combineRecords, List.length_flatMap]
    congr 1
    apply List.map_congr_left
    intro f _
    simp [writeFileRecords, List.enum_length]
  · intro r hr
    rw [combineRecords, List.mem_flatMap] at hr
    obtain ⟨f, hf, hrf⟩ := hr
    rw [writeFileRecords, List.mem_map] at hrf
    obtain ⟨p, hp, rfl⟩ := hrf
    exact ⟨f, hf, p.1, List.fst_lt_of_mem_enum hp, rfl⟩
  · rw [combineRecords, List.map_flatMap]
    refine List.nodup_flatMap.mpr ⟨?_, ?_⟩
    · intro f _
      simp only [map_fst_writeFileRecords]
      exact List.Nodup.map (fun i j hij => (mkReadName_inj hij).2)
        (List.nodup_range _)
    · refine List.Pairwise.imp ?_ hdist
      intro f g hfg x hxf hxg
      simp only [map_fst_writeFileRecords, List.mem_map] at hxf hxg
      obtain ⟨i, -, rfl⟩ := hxf
      obtain ⟨j, -, hj⟩ := hxg
      exact hfg ((mkReadName_inj hj).1.symm)

/-- Witness for C3: two taxa with two and one records; the merged output
has three records. -/
theorem c3_merge_renaming_witness :
    (([⟨['A'], [10, 11]⟩, ⟨['B'], [12]⟩] : List (SrcFile ℕ)).Pairwise
        (fun f g => f.taxon ≠ g.taxon)) ∧
      (combineRecords
          ([⟨['A'], [10, 11]⟩, ⟨['B'], [12]⟩] : List (SrcFile ℕ))).length
        = (([⟨['A'], [10, 11]⟩, ⟨['B'], [12]⟩] : List (SrcFile ℕ)).map
            (fun f => f.records.length)).sum :=
  ⟨by decide, (c3_merge_renaming _ (by decide)).1⟩

lemma inner_countP (a : ARow) (genome : List GRow) (s t : List Char) :
    (((genome.filter (fun g => decide (g.taxon = a.taxon))).map (fun g =>
        (⟨a.community, a.taxon, g.size, g.fasta, a.perc⟩ : STRec))).countP
      (fun r => decide (r.community = s ∧ r.taxon = t)))
    = if a.community = s ∧ a.taxon = t
      then genome.countP (fun g => decide (g.taxon = t)) else 0 := by
  rw [List.countP_map]
  by_cases h : a.community = s ∧ a.taxon = t
  · rw [if_pos h]
    have hp : ((fun r : STRec => decide (r.community = s ∧ r.taxon = t)) ∘
        (fun g : GRow =>
          (⟨a.community, a.taxon, g.size, g.fasta, a.perc⟩ : STRec)))
        = fun _ : GRow => true := by
      funext g
      simp [Function.comp, h.1, h.2]
    rw [hp, List.countP_true, ← h.2, List.countP_eq_length_filter]
  · rw [if_neg h]
    refine List.countP_eq_zero.mpr fun g _ => ?_
    simpa [Function.comp] using h

lemma sum_if_pair (l : List ARow) (s t : List Char) (K : ℕ)
    (hnd : (l.map (fun a => (a.community, a.taxon))).Nodup) :
    (l.map (fun a => if a.community = s ∧ a.taxon = t then K else 0)).sum
      = if ∃ a ∈ l, a.community = s ∧ a.taxon = t then K else 0 := by
  induction l with
  | nil => simp
  | cons a l ih =>
    rw [List.map_cons] at hnd
    have hnd' := List.nodup_cons.mp hnd
    rw [List.map_cons, List.sum_cons, ih hnd'.2]
    by_cases h : a.community = s ∧ a.taxon = t
    · have hno : ¬∃ b ∈ l, b.community = s ∧ b.taxon = t := by
        rintro ⟨b, hb, hb1, hb2⟩
        exact hnd'.1
          (List.mem_map.mpr ⟨b, hb, by simp [hb1, hb2, h.1, h.2]⟩)
      have hyes : ∃ b ∈ a :: l, b.community = s ∧ b.taxon = t :=
        ⟨a, List.mem_cons_self a l, h⟩
      rw [if_pos h, if_neg hno, if_pos hyes]
      omega
    · by_cases h2 : ∃ b ∈ l, b.community = s ∧ b.taxon = t
      · have h2' : ∃ b ∈ a :: l, b.community = s ∧ b.taxon = t := by
          obtain ⟨b, hb, hbp⟩ := h2
          exact ⟨b, List.mem_cons_of_mem a hb, hbp⟩
        rw [if_neg h, if_pos h2, if_pos h2']
        omega
      · have h2' : ¬∃ b ∈ a :: l, b.community = s ∧ b.taxon = t := by
          rintro ⟨b, hb, hbp⟩
          rcases List.mem_cons.mp hb with rfl | hb2
          · exact h hbp
          · exact h2 ⟨b, hb2, hbp⟩
        rw [if_neg h, if_neg h2, if_neg h2']

lemma countP_taxon_nodup (genome : List GRow) (t : List Char)
    (hg : (genome.map GRow.taxon).Nodup) :
    genome.countP (fun g => decide (g.taxon = t))
      = if ∃ g ∈ genome, g.taxon = t then 1 else 0 := by
  induction genome with
  | nil => simp
  | cons g gs ih =>
    rw [List.map_cons] at hg
    have h' := List.nodup_cons.mp hg
    rw [List.countP_cons, ih h'.2]
    by_cases h : g.taxon = t
    · have hno : ¬∃ x ∈ gs, x.taxon = t := by
        rintro ⟨x, hx, hxt⟩
        exact h'.1 (List.mem_map.mpr ⟨x, hx, by rw [hxt, h]⟩)
      have hyes : ∃ x ∈ g :: gs, x.taxon = t :=
        ⟨g, List.mem_cons_self g gs, h⟩
      rw [if_neg hno, if_pos hyes]
      simp [h]
    · by_cases h2 : ∃ x ∈ gs, x.taxon = t
      · have h2' : ∃ x ∈ g :: gs, x.taxon = t := by
          obtain ⟨x, hx, hxt⟩ := h2
          exact ⟨x, List.mem_cons_of_mem g hx, hxt⟩
        rw [if_pos h2, if_pos h2']
        simp [h]
      · have h2' : ¬∃ x ∈ g :: gs, x.taxon = t := by
          rintro ⟨x, hx, hxt⟩
          rcases List.mem_cons.mp hx with rfl | hx2
          · exact h hxt
          · exact h2 ⟨x, hx2, hxt⟩
        rw [if_neg h2, if_neg h2']
        simp [h]

/-- C6: for a genome table with duplicate-free Taxon keys and an
abundance table with duplicate-free (Community, Taxon) keys,
`sample_taxon_list` yields exactly one record for each (sample, taxon)
pair present in the abundance table whose taxon also appears in the
genome table, and no record for any pair missing from either side. -/
theorem c6_join_semantics (genome : List GRow) (abund : List ARow)
    (hg : (genome.map GRow.taxon).Nodup)
    (ha : (abund.map (fun a => (a.community, a.taxon))).Nodup)
    (s t : List Char) :
    (sampleTaxonList abund genome).countP
        (fun r => decide (r.community = s ∧ r.taxon = t))
      = if (∃ a ∈ abund, a.community = s ∧ a.taxon = t)
            ∧ (∃ g ∈ genome, g.taxon = t)
        then 1 else 0 := by
  rw [sampleTaxonList, List.countP_flatMap]
  have hmap : List.map
        ((List.countP fun r : STRec => decide (r.community = s ∧ r.taxon = t)) ∘
          fun a : ARow =>
            (genome.filter (fun g => decide (g.taxon = a.taxon))).map (fun g =>
              (⟨a.community, a.taxon, g.size, g.fasta, a.perc⟩ : STRec))) abund
      = abund.map (fun a => if a.community = s ∧ a.taxon = t
          then genome.countP (fun g => decide (g.taxon = t)) else 0) := by
    apply List.map_congr_left
    intro a _
    simpa [Function.comp] using inner_countP a genome s t
  rw [hmap, sum_if_pair abund s t _ ha, countP_taxon_nodup genome t hg]
  by_cases h1 : ∃ a ∈ abund, a.community = s ∧ a.taxon = t <;>
    by_cases h2 : ∃ g ∈ genome, g.taxon = t <;>
    simp [h1, h2]

/-- Witness for C6: one genome row and one abundance row sharing taxon
`A`; the join carries exactly one record for (s, A). -/
theorem c6_join_semantics_witness :
    ((([⟨['A'], ['f'], 5⟩] : List GRow).map GRow.taxon).Nodup) ∧
      ((([⟨['s'], ['A'], 50⟩] : List ARow).map
        (fun a => (a.community, a.taxon))).Nodup) ∧
      (sampleTaxonList [⟨['s'], ['A'], 50⟩] [⟨['A'], ['f'], 5⟩]).countP
          (fun r => decide (r.community = ['s'] ∧ r.taxon = ['A']))
        = if (∃ a ∈ ([⟨['s'], ['A'], 50⟩] : List ARow),
                a.community = ['s'] ∧ a.taxon = ['A'])
              ∧ (∃ g ∈ ([⟨['A'], ['f'], 5⟩] : List GRow), g.taxon = ['A'])
          then 1 else 0 :=
  ⟨by decide, by decide,
    c6_join_semantics [⟨['A'], ['f'], 5⟩] [⟨['s'], ['A'], 50⟩]
      (by decide) (by decide) ['s'] ['A']⟩

end MGSIM
